import Mathlib

/-!
Verification of the calendar event resolver of `daily_digest.py`.

Conventions of the embedding:
* Raw feeds and logical lines are byte sequences, modelled as `List Nat`
  (each element one byte value).
* Timezone-aware datetimes are modelled as `Instant`: seconds since the epoch
  in UTC, together with the display offset (in seconds) of the zone the value
  is expressed in.  Zones are modelled as fixed UTC offsets; the reference
  zone `America/Sao_Paulo` has the constant offset -03:00 in the era the
  claims concern (it has not observed DST since 2019).
* Python datetime comparison of aware values compares the underlying UTC
  instants; `astimezone` changes only the display offset.
* Fallible steps are modelled with `Option`.
-/

namespace DailyDigest

/-- A byte string (Python `bytes`), as a list of byte values. -/
abbrev Bytes := List Nat

/-- `raw.replace(b"\r\n", b"\n")`: left-to-right, non-overlapping. -/
def replCRLF : Bytes → Bytes
  | [] => []
  | [c] => [c]
  | c1 :: c2 :: t =>
    if c1 = 13 ∧ c2 = 10 then 10 :: replCRLF t
    else c1 :: replCRLF (c2 :: t)

/-- `raw.replace(b"\r", b"\n")`: a single-byte pattern, hence a byte map. -/
def replCRByte (b : Nat) : Nat := if b = 13 then 10 else b

/-- `raw.replace(b"\r\n", b"\n").replace(b"\r", b"\n")` from `_sanitize_ics`:
both CRLF and a bare CR become a single LF. -/
def normEol (raw : Bytes) : Bytes := (replCRLF raw).map replCRByte

/-- `txt.split(b"\n")`. -/
def splitLF (b : Bytes) : List Bytes := b.splitOn 10

/-- `b"\n".join(lines)`. -/
def joinLF (ls : List Bytes) : Bytes := [10].intercalate ls

/-- `line.startswith(b" ") or line.startswith(b"\t")`. -/
def startsWS : Bytes → Bool
  | [] => false
  | b :: _ => b == 32 || b == 9

/-- The unfolding loop of `_sanitize_ics`: a line beginning with space or tab
is a continuation; its first character is stripped and the rest appended to
the current logical line.  A non-continuation line flushes the current
logical line (when non-empty, per Python truthiness) and becomes the new
current line; the trailing current line is flushed at the end. -/
def unfoldAux (current : Bytes) : List Bytes → List Bytes
  | [] => if current.isEmpty then [] else [current]
  | l :: ls =>
    if startsWS l then unfoldAux (current ++ l.tail) ls
    else (if current.isEmpty then [] else [current]) ++ unfoldAux l ls

/-- The unfolded logical lines of a physical-line list (`unfolded_lines`). -/
def unfoldLines (ls : List Bytes) : List Bytes := unfoldAux [] ls

/-- ASCII whitespace, the set stripped by Python `bytes.strip()`. -/
def isPySpace (b : Nat) : Bool :=
  b == 32 || b == 9 || b == 10 || b == 13 || b == 11 || b == 12

/-- Python `bytes.strip()` with no argument. -/
def stripBytes (l : Bytes) : Bytes :=
  ((l.dropWhile isPySpace).reverse.dropWhile isPySpace).reverse

def isAsciiDigit (b : Nat) : Bool := 48 ≤ b && b ≤ 57

/-- Python `bytes.isdigit()`: non-empty and consisting solely of ASCII digits. -/
def bytesIsDigit (l : Bytes) : Bool := !l.isEmpty && l.all isAsciiDigit

/-- `line.split(b":", 1)[0].strip()`: the property name before the first
colon, trimmed. -/
def propName (l : Bytes) : Bytes := stripBytes (l.takeWhile fun b => !(b == 58))

/-- The filter of `_sanitize_ics`: keep a logical line iff it is not
whitespace-only and, when it contains a colon, its property name is not
all digits. -/
def keepLine (l : Bytes) : Bool :=
  !(stripBytes l).isEmpty && !(l.contains 58 && bytesIsDigit (propName l))

/-- The logical lines surviving sanitization (`sanitized_lines`). -/
def sanitizeLines (raw : Bytes) : List Bytes :=
  (unfoldLines (splitLF (normEol raw))).filter keepLine

/-- `_sanitize_ics` of `daily_digest.py` (identical to the inner
`sanitize_ics` of `_parse_ics`). -/
def sanitize_ics (raw : Bytes) : Bytes := joinLF (sanitizeLines raw)

example : sanitize_ics [32, 32, 88] = [32, 88] := by decide

example : sanitize_ics (sanitize_ics [32, 32, 88]) = [88] := by decide

/-! ### Timezone-aware datetimes -/

/-- A timezone-aware datetime: seconds since the epoch in UTC together with
the fixed UTC offset (in seconds) of the zone it is displayed in.  Python
compares aware datetimes by UTC instant; `astimezone` changes only the
offset. -/
structure Instant where
  utc : Int
  off : Int
deriving DecidableEq, Repr

/-- The reference zone (module constant `TZ`, default `America/Sao_Paulo`),
as its fixed modern-era offset -03:00 in seconds. -/
def spTZ : Int := -10800

/-- A value a `dtstart`/`dtend` property can decode to: date-only, zone-naive
datetime, or zone-aware datetime.  Date-only and naive values carry their
wall-clock reading in seconds since the epoch (as if read in UTC). -/
inductive DTValue where
  | dateOnly (wall : Int)
  | naive (wall : Int)
  | aware (i : Instant)
deriving DecidableEq, Repr

/-- `_norm` of `gcal_events` (lines 628–635): a date-only value becomes
midnight of that date with the reference zone attached
(`datetime.combine(dtv, time.min).replace(tzinfo=tz)`); a zone-naive
datetime is interpreted as UTC and converted
(`replace(tzinfo=UTC).astimezone(tz)`); a zone-aware datetime is converted
directly (`astimezone(tz)`). -/
def norm (tzoff : Int) : DTValue → Instant
  | .dateOnly wall => ⟨wall - tzoff, tzoff⟩
  | .naive wall => ⟨wall, tzoff⟩
  | .aware i => ⟨i.utc, tzoff⟩

/-- Days since 1970-01-01 of a Gregorian civil date (standard
era/year-of-era civil-days algorithm). -/
def daysFromCivil (y m d : Int) : Int :=
  let y' := if m ≤ 2 then y - 1 else y
  let era := (if 0 ≤ y' then y' else y' - 399) / 400
  let yoe := y' - era * 400
  let mp := (m + 9) % 12
  let doy := (153 * mp + 2) / 5 + d - 1
  let doe := yoe * 365 + yoe / 4 - yoe / 100 + doy
  era * 146097 + doe - 719468

example : daysFromCivil 1970 1 1 = 0 := by decide
example : daysFromCivil 2025 9 19 = 20350 := by decide

/-- Seconds since the epoch of a wall-clock reading. -/
def wallSecs (y m d h mi s : Int) : Int :=
  daysFromCivil y m d * 86400 + h * 3600 + mi * 60 + s

/-- The aware datetime with the given wall-clock reading in a fixed-offset
zone (UTC instant = wall reading minus offset). -/
def mkAware (y m d h mi s off : Int) : Instant :=
  ⟨wallSecs y m d h mi s - off, off⟩

example : (mkAware 2025 9 19 11 0 0 spTZ).utc = 1758290400 := by decide
example : mkAware 2025 9 19 11 0 0 spTZ = ⟨(mkAware 2025 9 19 14 0 0 0).utc, spTZ⟩ := by
  decide

/-! ### Calendar parser (adapter around the grammar library)

`_parse_ics` delegates grammar-level decoding to the external `icalendar`
library (`Calendar.from_ical`), which is not part of this repository.  The
grammar-level pieces below are modelled from the spec (§4.2): extract each
VEVENT's `SUMMARY`, `DTSTART`, `DTEND`, `RRULE` from the sanitized logical
lines; a property whose value fails to decode is skipped (treated as
absent, which is what the library's per-property error recovery does). -/

def digitsToNat (l : Bytes) : Nat := l.foldl (fun a b => a * 10 + (b - 48)) 0

/-- Wall-clock seconds of a `YYYYMMDDTHHMMSS` byte string. -/
def dtWall (v : Bytes) : Int :=
  wallSecs (digitsToNat (v.take 4)) (digitsToNat ((v.drop 4).take 2))
    (digitsToNat ((v.drop 6).take 2)) (digitsToNat ((v.drop 9).take 2))
    (digitsToNat ((v.drop 11).take 2)) (digitsToNat ((v.drop 13).take 2))

/-- Modelled from the spec: the library's date / datetime value decoding.
`YYYYMMDD` (all digits) is a date-only value; with `THHMMSS` appended a
zone-naive datetime; with a trailing `Z` a UTC-aware datetime. -/
def parseDT (v : Bytes) : Option DTValue :=
  if v.length = 8 && v.all isAsciiDigit then
    some (.dateOnly (wallSecs (digitsToNat (v.take 4)) (digitsToNat ((v.drop 4).take 2))
      (digitsToNat ((v.drop 6).take 2)) 0 0 0))
  else if v.length = 15 && (v.take 8).all isAsciiDigit && v.get? 8 == some 84
      && ((v.drop 9).all isAsciiDigit) then
    some (.naive (dtWall v))
  else if v.length = 16 && (v.take 8).all isAsciiDigit && v.get? 8 == some 84
      && ((v.drop 9).take 6).all isAsciiDigit && v.get? 15 == some 90 then
    some (.aware ⟨dtWall v, 0⟩)
  else none

def upperByte (b : Nat) : Nat := if 97 ≤ b ∧ b ≤ 122 then b - 32 else b

def upperBytes (l : Bytes) : Bytes := l.map upperByte

def lowerByte (b : Nat) : Nat := if 65 ≤ b ∧ b ≤ 90 then b + 32 else b

/-- Python `bytes.lower()` restricted to ASCII. -/
def lowerBytes (l : Bytes) : Bytes := l.map lowerByte

/-- The name of a property line: before the first colon, with parameters
(after `;`) removed, uppercased (the library is case-insensitive). -/
def lineName (l : Bytes) : Bytes :=
  upperBytes ((l.takeWhile fun b => !(b == 58)).takeWhile fun b => !(b == 59))

/-- The value of a property line: everything after the first colon. -/
def lineValue (l : Bytes) : Bytes := (l.dropWhile fun b => !(b == 58)).tail

/-- The value of the first property with the given (uppercase) name. -/
def findProp (name : Bytes) (lines : List Bytes) : Option Bytes :=
  (lines.find? fun l => lineName l == name).map lineValue

def BEGIN_VEVENT : Bytes := [66, 69, 71, 73, 78, 58, 86, 69, 86, 69, 78, 84]

def END_VEVENT : Bytes := [69, 78, 68, 58, 86, 69, 86, 69, 78, 84]

/-- Modelled from the spec: `cal.walk("vevent")` — the groups of property
lines strictly between `BEGIN:VEVENT` and `END:VEVENT`, in feed order
(`mode = some acc` while inside a component, lines collected reversed). -/
def collectVE (mode : Option (List Bytes)) : List Bytes → List (List Bytes)
  | [] => []
  | l :: ls =>
    match mode with
    | none =>
      if upperBytes l == BEGIN_VEVENT then collectVE (some []) ls
      else collectVE none ls
    | some acc =>
      if upperBytes l == END_VEVENT then acc.reverse :: collectVE none ls
      else collectVE (some (l :: acc)) ls

/-- The fields `_parse_ics` reads off one VEVENT component.  `rrule` is an
ordered rule-part name → values mapping (`None` ≠ present-but-empty). -/
structure VEventRaw where
  summary : Option Bytes
  dtstart : Option DTValue
  dtend : Option DTValue
  rrule : Option (List (Bytes × List Bytes))
deriving DecidableEq, Repr

/-- Modelled from the spec: recurrence-rule value decoding — `;`-separated
`KEY=v1,v2,...` parts into the ordered key → values mapping. -/
def parseRRuleVal (v : Bytes) : List (Bytes × List Bytes) :=
  (v.splitOn 59).map fun part =>
    (upperBytes (part.takeWhile fun b => !(b == 61)),
     ((part.dropWhile fun b => !(b == 61)).tail).splitOn 44)

def SUMMARYb : Bytes := [83, 85, 77, 77, 65, 82, 89]

def DTSTARTb : Bytes := [68, 84, 83, 84, 65, 82, 84]

def DTENDb : Bytes := [68, 84, 69, 78, 68]

def RRULEb : Bytes := [82, 82, 85, 76, 69]

def parseVEvent (lines : List Bytes) : VEventRaw where
  summary := findProp SUMMARYb lines
  dtstart := (findProp DTSTARTb lines).bind parseDT
  dtend := (findProp DTENDb lines).bind parseDT
  rrule := (findProp RRULEb lines).map parseRRuleVal

/-! ### Per-component resolution and `_parse_ics` -/

/-- One resolved occurrence `{title, start, end}` (`stop` stands for the
field `end`, a reserved word). -/
structure Ev where
  title : Bytes
  start : Instant
  stop : Instant
deriving DecidableEq, Repr

/-- `valid_rrule_props`: the RFC 5545 rule-part allow-list of `_parse_ics`. -/
def validRRuleProps : List Bytes :=
  [[70, 82, 69, 81], [85, 78, 84, 73, 76], [67, 79, 85, 78, 84],
   [73, 78, 84, 69, 82, 86, 65, 76], [66, 89, 83, 69, 67, 79, 78, 68],
   [66, 89, 77, 73, 78, 85, 84, 69], [66, 89, 72, 79, 85, 82],
   [66, 89, 68, 65, 89], [66, 89, 77, 79, 78, 84, 72, 68, 65, 89],
   [66, 89, 89, 69, 65, 82, 68, 65, 89], [66, 89, 87, 69, 69, 75, 78, 79],
   [66, 89, 77, 79, 78, 84, 72], [66, 89, 83, 69, 84, 80, 79, 83],
   [87, 75, 83, 84]]

/-- The `parts` list `_parse_ics` renders from a recurrence mapping: the
entries whose uppercased key is on the allow-list, as `KEY=v1,v2,...`. -/
def rruleParts (rr : List (Bytes × List Bytes)) : List Bytes :=
  rr.filterMap fun kv =>
    if validRRuleProps.contains (upperBytes kv.1) then
      some (kv.1 ++ 61 :: [44].intercalate kv.2)
    else none

/-- Modelled from the spec: the external recurrence evaluator
(`dateutil.rrule.rrulestr` plus `rule.between`), which is not part of this
repository.  Given the rendered rule parts, the component start and the
window bounds (all as UTC seconds), it returns `none` when rule construction
fails (`rrulestr` raising `ValueError`) and otherwise the occurrence start
instants inside `[w0, w1]`, inclusive, as UTC seconds. -/
abbrev RuleEval := List Bytes → Int → Int → Int → Option (List Int)

def SEM_TITULO : Bytes := [40, 115, 101, 109, 32, 116, 195, 173, 116, 117, 108, 111, 41]

/-- `str(comp.get("summary") or "(sem título)")`: an absent or empty summary
becomes the placeholder (Python truthiness of the empty string). -/
def titleOf (c : VEventRaw) : Bytes :=
  match c.summary with
  | some s => if s.isEmpty then SEM_TITULO else s
  | none => SEM_TITULO

/-- `s1`, the normalized start, when `dtstart` is present. -/
def normStart (tzoff : Int) (c : VEventRaw) : Option Instant :=
  c.dtstart.map (norm tzoff)

/-- `e1`: the normalized `dtend` when present, else `s1 + timedelta(hours=1)`. -/
def normEnd (tzoff : Int) (c : VEventRaw) (s1 : Instant) : Instant :=
  match c.dtend with
  | some de => norm tzoff de
  | none => ⟨s1.utc + 3600, s1.off⟩

/-- The per-component loop body of `_parse_ics` (lines 670–750): resolve one
VEVENT against the window `[wStart, wEnd]`.  Python's `if not rr:` takes the
non-recurring branch both when `rrule` is absent and when the mapping is
empty (an empty dict is falsy). -/
def processComp (tzoff : Int) (ruleEval : RuleEval) (wStart wEnd : Instant)
    (c : VEventRaw) : List Ev :=
  match normStart tzoff c with
  | none => []
  | some s1 =>
    let title := titleOf c
    let e1 := normEnd tzoff c s1
    match c.rrule with
    | none =>
      if s1.utc ≤ wEnd.utc ∧ wStart.utc ≤ e1.utc then [⟨title, s1, e1⟩] else []
    | some rr =>
      if rr.isEmpty then
        if s1.utc ≤ wEnd.utc ∧ wStart.utc ≤ e1.utc then [⟨title, s1, e1⟩] else []
      else
        let parts := rruleParts rr
        if parts.isEmpty then []
        else
          match ruleEval parts s1.utc wStart.utc wEnd.utc with
          | none => []
          | some occs =>
            occs.filterMap fun occ =>
              let occLocal : Instant := ⟨occ, tzoff⟩
              let oe : Instant := ⟨occ + (e1.utc - s1.utc), tzoff⟩
              if occLocal.utc ≤ wEnd.utc ∧ wStart.utc ≤ oe.utc then
                some ⟨title, occLocal, oe⟩
              else none

/-- Stable insertion by start instant.  The source sorts by the ISO start
string; every emitted instant carries the same reference-zone offset, so ISO
order coincides with UTC order, and Python's sort is stable. -/
def insertByStart (e : Ev) : List Ev → List Ev
  | [] => [e]
  | x :: xs =>
    if x.start.utc ≤ e.start.utc then x :: insertByStart e xs else e :: x :: xs

def sortByStart (evs : List Ev) : List Ev :=
  evs.foldl (fun acc e => insertByStart e acc) []

/-- `_parse_ics` (lines 637–752): sanitize the raw bytes, read the VEVENT
components, resolve each against the window, and sort ascending by start. -/
def parse_ics (tzoff : Int) (ruleEval : RuleEval) (wStart wEnd : Instant)
    (raw : Bytes) : List Ev :=
  sortByStart ((((collectVE none (sanitizeLines raw)).map parseVEvent).map
    (processComp tzoff ruleEval wStart wEnd)).flatten)

/-! ### `gcal_events`: primary-or-fallback -/

/-- Outcome of `requests.get` on the ICS URL: the request may raise, or
return a response with success flag `ok`, a `Content-Type` header and a
body. -/
inductive Fetched where
  | raises
  | resp (ok : Bool) (ctype : Bytes) (content : Bytes)

/-- The configured primary ICS source (`GCAL_ICS_URL`): an HTTP(S) URL with
its fetch outcome, or a local file whose read yields bytes or raises. -/
inductive Src where
  | url (f : Fetched)
  | file (r : Option Bytes)

/-- Outcome of the fallback Google Calendar API request: an error status (the
code prints a warning and returns `[]`) or the event list for the same
window. -/
inductive FallbackResp where
  | notOk
  | ok (items : List Ev)

def TEXT_CALENDAR : Bytes :=
  [116, 101, 120, 116, 47, 99, 97, 108, 101, 110, 100, 97, 114]

/-- `pat` begins `l`. -/
def leadsWith : Bytes → Bytes → Bool
  | [], _ => true
  | _ :: _, [] => false
  | a :: as, b :: bs => a == b && leadsWith as bs

/-- Python `pat in l`: `pat` occurs contiguously somewhere in `l`. -/
def occursIn (pat : Bytes) : Bytes → Bool
  | [] => leadsWith pat []
  | b :: bs => leadsWith pat (b :: bs) || occursIn pat bs

/-- `"text/calendar" in ct.lower()`. -/
def ctypeIsCalendar (ct : Bytes) : Bool := occursIn TEXT_CALENDAR (lowerBytes ct)

/-- The primary branch of `gcal_events` (lines 754–775): `some events` when
the ICS source yields a parse result that is returned directly; `none` when
the primary is unusable — no source configured, HTTP error, unexpected
content type, or an exception during fetch, read or parse, all swallowed by
the `except`.  `parseF` stands for `_parse_ics` applied to the fetched
bytes; `none` means it raised. -/
def primaryResult (parseF : Bytes → Option (List Ev)) : Option Src → Option (List Ev)
  | none => none
  | some (.url .raises) => none
  | some (.url (.resp ok ct content)) =>
    if !ok then none
    else if !ctypeIsCalendar ct then none
    else parseF content
  | some (.file none) => none
  | some (.file (some raw)) => parseF raw

/-- `gcal_events` (lines 754–807): return the primary parse when usable,
else the fallback API result when a token is configured (`[]` when the API
call errors), else `[]`. -/
def gcal_events (parseF : Bytes → Option (List Ev)) (src : Option Src)
    (fallback : Option FallbackResp) : List Ev :=
  match primaryResult parseF src with
  | some evs => evs
  | none =>
    match fallback with
    | none => []
    | some .notOk => []
    | some (.ok items) => items

/-! ### Feed-structure predicates

Only the first segment of a logical line can carry leading whitespace: the
accumulating `current_line` is empty exactly at the start of the feed and
immediately after an empty physical line, and only then does a continuation
line's stripped tail become the head of a logical line. -/

/-- The first physical line, when there is one, is not a continuation. -/
def firstOK : List Bytes → Bool
  | [] => true
  | l :: _ => !startsWS l

/-- No continuation line directly follows an empty physical line. -/
def pairOK : List Bytes → Bool
  | a :: b :: t => (!a.isEmpty || !startsWS b) && pairOK (b :: t)
  | _ => true

/-- The raw feed neither opens with a continuation line nor has a
continuation line directly after an empty physical line. -/
def goodFeed (raw : Bytes) : Bool :=
  firstOK (splitLF (normEol raw)) && pairOK (splitLF (normEol raw))

/-! ### Concrete inputs used in the claims -/

/-- `"Standup"`. -/
def STANDUPb : Bytes := [83, 116, 97, 110, 100, 117, 112]

/-- The one-VEVENT feed of the end-to-end scenario:
`BEGIN:VCALENDAR / BEGIN:VEVENT / DTSTART:20250919T140000Z /
DTEND:20250919T150000Z / SUMMARY:Standup / END:VEVENT / END:VCALENDAR`. -/
def c1Feed : Bytes :=
  [66, 69, 71, 73, 78, 58, 86, 67, 65, 76, 69, 78, 68, 65, 82, 10,
   66, 69, 71, 73, 78, 58, 86, 69, 86, 69, 78, 84, 10,
   68, 84, 83, 84, 65, 82, 84, 58, 50, 48, 50, 53, 48, 57, 49, 57, 84,
   49, 52, 48, 48, 48, 48, 90, 10,
   68, 84, 69, 78, 68, 58, 50, 48, 50, 53, 48, 57, 49, 57, 84,
   49, 53, 48, 48, 48, 48, 90, 10,
   83, 85, 77, 77, 65, 82, 89, 58, 83, 116, 97, 110, 100, 117, 112, 10,
   69, 78, 68, 58, 86, 69, 86, 69, 78, 84, 10,
   69, 78, 68, 58, 86, 67, 65, 76, 69, 78, 68, 65, 82, 10]

/-- `"  X"`: two spaces then `X` — the first physical line is a continuation
whose stripped tail still begins with a space. -/
def rawDoubleSpace : Bytes := [32, 32, 88]

/-- `"02:SOMEVALUE"`. -/
def LINE02 : Bytes := [48, 50, 58, 83, 79, 77, 69, 86, 65, 76, 85, 69]

/-- `"SUMMARY:02"`. -/
def SUMMARY02 : Bytes := [83, 85, 77, 77, 65, 82, 89, 58, 48, 50]

/-- `"02:SOMEVALUE\nSUMMARY:02"`. -/
def rawC7 : Bytes := LINE02 ++ 10 :: SUMMARY02

/-- `"12345"`: a digit-only line without a colon. -/
def rawDigits : Bytes := [49, 50, 51, 52, 53]

/-- `"A:1\n B\n02:x"`: a well-folded feed with one continuation and one
digit-named line. -/
def rawWellFolded : Bytes := [65, 58, 49, 10, 32, 66, 10, 48, 50, 58, 120]

/-- `"A:1"`. -/
def rawA1 : Bytes := [65, 58, 49]

/-! ## Theorems -/

/-- C1: for the feed with exactly one non-recurring VEVENT
(`DTSTART:20250919T140000Z`, `DTEND:20250919T150000Z`, `SUMMARY:Standup`),
resolving over `[2025-09-19T00:00:00-03:00, 2025-09-19T23:59:59-03:00]` with
reference zone `America/Sao_Paulo` returns exactly one occurrence, titled
`Standup`, with start `2025-09-19T11:00:00-03:00` (and end one hour later),
for every recurrence evaluator (none is consulted). -/
theorem C1_end_to_end (ruleEval : RuleEval) :
    parse_ics spTZ ruleEval (mkAware 2025 9 19 0 0 0 spTZ)
      (mkAware 2025 9 19 23 59 59 spTZ) c1Feed =
      [⟨STANDUPb, mkAware 2025 9 19 11 0 0 spTZ, mkAware 2025 9 19 12 0 0 spTZ⟩] :=
  rfl

/-- Witness for C1 at a concrete (never-consulted) recurrence evaluator. -/
theorem C1_end_to_end_witness :
    parse_ics spTZ (fun _ _ _ _ => none) (mkAware 2025 9 19 0 0 0 spTZ)
      (mkAware 2025 9 19 23 59 59 spTZ) c1Feed =
      [⟨STANDUPb, mkAware 2025 9 19 11 0 0 spTZ, mkAware 2025 9 19 12 0 0 spTZ⟩] :=
  C1_end_to_end fun _ _ _ _ => none

/-- C2: whenever the primary ICS source is unusable (`primaryResult` is
`none`: no source, fetch exception, HTTP error, wrong content type, or parse
failure), `gcal_events` returns exactly the configured fallback client's
result — and the empty list, not an exception, when the fallback is absent
or itself errors. -/
theorem C2_fallback_exclusive (parseF : Bytes → Option (List Ev))
    (src : Option Src) (fb : Option FallbackResp)
    (hp : primaryResult parseF src = none) :
    (∀ items, fb = some (.ok items) → gcal_events parseF src fb = items) ∧
    ((fb = none ∨ fb = some .notOk) → gcal_events parseF src fb = []) := by
  unfold gcal_events
  rw [hp]
  constructor
  · rintro items rfl
    rfl
  · rintro (rfl | rfl) <;> rfl

/-- Witness for C2 at concrete inputs: with a raising fetch, a configured
fallback's items are returned verbatim; with no fallback the result is `[]`. -/
theorem C2_fallback_exclusive_witness :
    gcal_events (fun _ => none) (some (.url .raises))
      (some (.ok [⟨STANDUPb, ⟨0, 0⟩, ⟨3600, 0⟩⟩])) = [⟨STANDUPb, ⟨0, 0⟩, ⟨3600, 0⟩⟩] ∧
    gcal_events (fun _ => none) (some (.url .raises)) none = [] :=
  ⟨(C2_fallback_exclusive (fun _ => none) (some (.url .raises))
      (some (.ok [⟨STANDUPb, ⟨0, 0⟩, ⟨3600, 0⟩⟩])) rfl).1 _ rfl,
   (C2_fallback_exclusive (fun _ => none) (some (.url .raises)) none rfl).2
      (Or.inl rfl)⟩

/-- C3 as stated is false: with the reference zone `America/Sao_Paulo`
(offset -03:00), normalizing the date 2025-09-19 gives midnight in the
reference zone, while normalizing the naive datetime
`combine(D, midnight)` gives midnight UTC converted — different instants. -/
theorem C3_counterexample :
    norm spTZ (.dateOnly (86400 * daysFromCivil 2025 9 19)) ≠
      norm spTZ (.naive (86400 * daysFromCivil 2025 9 19)) := by
  decide

/-- C3 amended: `normalize(D)` is `normalize(combine(D, midnight))` shifted
by the reference-zone offset (a date becomes midnight in the reference zone,
a naive datetime midnight UTC); the claimed equality
`normalize(D) = normalize(combine(D, midnight))` holds exactly when the
reference-zone offset is zero. -/
theorem C3_amended (tzoff w : Int) :
    (norm tzoff (.dateOnly w)).utc = (norm tzoff (.naive w)).utc - tzoff ∧
    (norm tzoff (.dateOnly w) = norm tzoff (.naive w) ↔ tzoff = 0) := by
  refine ⟨rfl, ?_⟩
  rw [show norm tzoff (.dateOnly w) = ⟨w - tzoff, tzoff⟩ from rfl,
    show norm tzoff (.naive w) = ⟨w, tzoff⟩ from rfl, Instant.mk.injEq]
  constructor
  · rintro ⟨h1, -⟩
    omega
  · intro h
    exact ⟨by omega, rfl⟩

/-- Witness for C3 amended at the São Paulo offset and the epoch date. -/
theorem C3_amended_witness :
    (norm spTZ (.dateOnly 0)).utc = (norm spTZ (.naive 0)).utc - spTZ ∧
    (norm spTZ (.dateOnly 0) = norm spTZ (.naive 0) ↔ spTZ = 0) :=
  C3_amended spTZ 0

/-- C4 as stated is false for the "present but empty" half: a component
whose `rrule` mapping is present but empty is handled by `if not rr:` (an
empty dict is falsy) and is emitted as the single non-recurring occurrence,
not zero occurrences. -/
theorem C4_counterexample :
    processComp spTZ (fun _ _ _ _ => none) (mkAware 2025 9 19 0 0 0 spTZ)
      (mkAware 2025 9 19 23 59 59 spTZ)
      ⟨some STANDUPb, some (.aware ⟨1758290400, 0⟩),
        some (.aware ⟨1758294000, 0⟩), some []⟩ =
      [⟨STANDUPb, ⟨1758290400, spTZ⟩, ⟨1758294000, spTZ⟩⟩] := by
  decide

/-- C4 amended: a component whose recurrence mapping is non-empty but whose
parts are all outside the allow-list yields zero occurrences (no error); a
present-but-empty mapping is instead treated as the single non-recurring
form. -/
theorem C4_amended (tzoff : Int) (ruleEval : RuleEval) (wStart wEnd : Instant)
    (c : VEventRaw) (rr : List (Bytes × List Bytes))
    (hrr : c.rrule = some rr) (hne : rr ≠ [])
    (hall : ∀ kv ∈ rr, validRRuleProps.contains (upperBytes kv.1) = false) :
    processComp tzoff ruleEval wStart wEnd c = [] := by
  have hparts : rruleParts rr = [] := by
    rw [rruleParts, List.filterMap_eq_nil_iff]
    intro kv hkv
    rw [hall kv hkv]
    rfl
  unfold processComp
  cases hs : normStart tzoff c with
  | none => rfl
  | some s1 =>
    simp only [hrr, List.isEmpty_iff, hne, if_false, hparts]
    rfl

/-- Witness for C4 amended: a component whose only rule part `X=1` is
unrecognized resolves to no occurrences. -/
theorem C4_amended_witness :
    processComp spTZ (fun _ _ _ _ => some [0]) ⟨0, spTZ⟩ ⟨2000000000, spTZ⟩
      ⟨some STANDUPb, some (.aware ⟨1758290400, 0⟩), none,
        some [([88], [[49]])]⟩ = [] :=
  C4_amended spTZ (fun _ _ _ _ => some [0]) ⟨0, spTZ⟩ ⟨2000000000, spTZ⟩
    _ [([88], [[49]])] rfl (by decide) (by decide)

/-- Every occurrence `processComp` emits has duration `e1 - s1`: in the
non-recurring branches the emitted pair is `(s1, e1)` itself, and in the
recurring branch each end is its start plus `e1 - s1`. -/
theorem processComp_duration (tzoff : Int) (ruleEval : RuleEval)
    (wStart wEnd : Instant) (c : VEventRaw) (s1 : Instant)
    (hs : normStart tzoff c = some s1) (e : Ev)
    (he : e ∈ processComp tzoff ruleEval wStart wEnd c) :
    e.stop.utc - e.start.utc = (normEnd tzoff c s1).utc - s1.utc := by
  simp only [processComp, hs] at he
  rcases hrr : c.rrule with _ | rr <;> simp only [hrr] at he
  · split at he
    · simp only [List.mem_singleton] at he
      subst he
      rfl
    · simp at he
  · split at he
    · split at he
      · simp only [List.mem_singleton] at he
        subst he
        rfl
      · simp at he
    · split at he
      · simp at he
      · rcases hr : ruleEval (rruleParts rr) s1.utc wStart.utc wEnd.utc with _ | occs <;>
          rw [hr] at he
        · simp at he
        · simp only [] at he
          rw [List.mem_filterMap] at he
          obtain ⟨occ, -, hocc⟩ := he
          split at hocc
          · rw [Option.some.injEq] at hocc
            subst hocc
            simp only
            ring
          · simp at hocc

/-- C5: for every recurring component (a present, non-empty recurrence
mapping) and every occurrence the expander emits, `end - start` equals the
original component's `end - start` (`normEnd` minus `normStart`). -/
theorem C5_duration_invariance (tzoff : Int) (ruleEval : RuleEval)
    (wStart wEnd : Instant) (c : VEventRaw)
    (rr : List (Bytes × List Bytes)) (s1 : Instant)
    (hrr : c.rrule = some rr) (hne : rr ≠ [])
    (hs : normStart tzoff c = some s1) (e : Ev)
    (he : e ∈ processComp tzoff ruleEval wStart wEnd c) :
    e.stop.utc - e.start.utc = (normEnd tzoff c s1).utc - s1.utc :=
  processComp_duration tzoff ruleEval wStart wEnd c s1 hs e he

/-- Witness for C5 at a concrete recurring component (`FREQ=DAILY`, start
2025-09-19T14:00Z, default one-hour end) and an evaluator emitting one
occurrence: its duration is the original hour. -/
theorem C5_duration_invariance_witness :
    (⟨STANDUPb, ⟨1758290400, spTZ⟩, ⟨1758294000, spTZ⟩⟩ : Ev).stop.utc -
        (⟨STANDUPb, ⟨1758290400, spTZ⟩, ⟨1758294000, spTZ⟩⟩ : Ev).start.utc =
      (normEnd spTZ
          ⟨some STANDUPb, some (.aware ⟨1758290400, 0⟩), none,
            some [([70, 82, 69, 81], [[68, 65, 73, 76, 89]])]⟩
          ⟨1758290400, spTZ⟩).utc - (⟨1758290400, spTZ⟩ : Instant).utc :=
  C5_duration_invariance spTZ (fun _ _ _ _ => some [1758290400]) ⟨0, spTZ⟩
    ⟨2000000000, spTZ⟩
    ⟨some STANDUPb, some (.aware ⟨1758290400, 0⟩), none,
      some [([70, 82, 69, 81], [[68, 65, 73, 76, 89]])]⟩
    [([70, 82, 69, 81], [[68, 65, 73, 76, 89]])] ⟨1758290400, spTZ⟩ rfl
    (by decide) rfl _ (by decide)

/-- C6: a non-recurring component is included exactly when
`start <= window.end` and `end >= window.start` (both inclusive), as the
single occurrence `(title, s1, e1)`. -/
theorem C6_window_overlap (tzoff : Int) (ruleEval : RuleEval)
    (wStart wEnd : Instant) (c : VEventRaw) (s1 : Instant)
    (hrr : c.rrule = none) (hs : normStart tzoff c = some s1) :
    processComp tzoff ruleEval wStart wEnd c =
      if s1.utc ≤ wEnd.utc ∧ wStart.utc ≤ (normEnd tzoff c s1).utc then
        [⟨titleOf c, s1, normEnd tzoff c s1⟩]
      else [] := by
  unfold processComp
  rw [hs, hrr]

/-- Witness for C6: an event with `start = window.end` (boundary) is
included. -/
theorem C6_window_overlap_witness :
    processComp spTZ (fun _ _ _ _ => none) (mkAware 2025 9 19 0 0 0 spTZ)
      (mkAware 2025 9 19 23 59 59 spTZ)
      ⟨some STANDUPb, some (.aware (mkAware 2025 9 19 23 59 59 spTZ)), none,
        none⟩ =
      if (mkAware 2025 9 19 23 59 59 spTZ).utc ≤
            (mkAware 2025 9 19 23 59 59 spTZ).utc ∧
          (mkAware 2025 9 19 0 0 0 spTZ).utc ≤
            (normEnd spTZ
                ⟨some STANDUPb, some (.aware (mkAware 2025 9 19 23 59 59 spTZ)),
                  none, none⟩
                ⟨(mkAware 2025 9 19 23 59 59 spTZ).utc, spTZ⟩).utc then
        [⟨titleOf
            ⟨some STANDUPb, some (.aware (mkAware 2025 9 19 23 59 59 spTZ)),
              none, none⟩,
          ⟨(mkAware 2025 9 19 23 59 59 spTZ).utc, spTZ⟩,
          normEnd spTZ
            ⟨some STANDUPb, some (.aware (mkAware 2025 9 19 23 59 59 spTZ)),
              none, none⟩
            ⟨(mkAware 2025 9 19 23 59 59 spTZ).utc, spTZ⟩⟩]
      else [] :=
  C6_window_overlap spTZ (fun _ _ _ _ => none) (mkAware 2025 9 19 0 0 0 spTZ)
    (mkAware 2025 9 19 23 59 59 spTZ)
    ⟨some STANDUPb, some (.aware (mkAware 2025 9 19 23 59 59 spTZ)), none,
      none⟩
    ⟨(mkAware 2025 9 19 23 59 59 spTZ).utc, spTZ⟩ rfl rfl

/-- C7: sanitization never raises (it is a total function) and its filter
stage drops, among the unfolded logical lines, exactly the whitespace-only
lines and the lines whose trimmed property name before the first colon is
all digits; surviving lines are kept unchanged and in order (a sublist). -/
theorem C7_digit_name_filter (raw : Bytes) :
    (sanitizeLines raw).Sublist (unfoldLines (splitLF (normEol raw))) ∧
    (∀ l ∈ unfoldLines (splitLF (normEol raw)),
      l.contains 58 = true → bytesIsDigit (propName l) = true →
        l ∉ sanitizeLines raw) ∧
    (∀ l ∈ unfoldLines (splitLF (normEol raw)),
      (stripBytes l).isEmpty = false →
      ¬(l.contains 58 = true ∧ bytesIsDigit (propName l) = true) →
        l ∈ sanitizeLines raw) := by
  refine ⟨List.filter_sublist _, ?_, ?_⟩
  · intro l _ hc hd hmem
    have hk := (List.mem_filter.mp hmem).2
    rw [keepLine, hc, hd] at hk
    simp at hk
  · intro l hl hs hcd
    refine List.mem_filter.mpr ⟨hl, ?_⟩
    have hand : (l.contains 58 && bytesIsDigit (propName l)) = false := by
      cases hco : l.contains 58 with
      | false => rfl
      | true =>
        cases hdg : bytesIsDigit (propName l) with
        | false => rfl
        | true => exact absurd ⟨hco, hdg⟩ hcd
    rw [keepLine, hs, hand]
    rfl

/-- Witness for C7: in the feed `"02:SOMEVALUE\nSUMMARY:02"`, the
digit-named line is dropped and the digit-valued line survives. -/
theorem C7_digit_name_filter_witness :
    LINE02 ∉ sanitizeLines rawC7 ∧ SUMMARY02 ∈ sanitizeLines rawC7 :=
  ⟨(C7_digit_name_filter rawC7).2.1 LINE02 (by decide) (by decide) (by decide),
   (C7_digit_name_filter rawC7).2.2 SUMMARY02 (by decide) (by decide) (by decide)⟩

/-- C10: an unfolded logical line that is not whitespace-only and contains
no colon byte is retained by the sanitizer's filter (the digit-only-name
test runs only on lines with a colon). -/
theorem C10_colonless_line_retained (raw l : Bytes)
    (hl : l ∈ unfoldLines (splitLF (normEol raw)))
    (hw : (stripBytes l).isEmpty = false) (hc : l.contains 58 = false) :
    l ∈ sanitizeLines raw := by
  refine List.mem_filter.mpr ⟨hl, ?_⟩
  rw [keepLine, hw, hc]
  rfl

/-- Witness for C10: the colon-free, all-digit line `"12345"` survives. -/
theorem C10_colonless_line_retained_witness :
    rawDigits ∈ sanitizeLines rawDigits :=
  C10_colonless_line_retained rawDigits rawDigits (by decide) (by decide)
    (by decide)

/-! ### Structural lemmas for the sanitizer -/

/-- Every part produced by `splitOn` omits the separator, and its bytes all
come from the source. -/
theorem mem_splitOn_props (sep : Nat) :
    ∀ (xs : Bytes), ∀ l ∈ xs.splitOn sep, sep ∉ l ∧ ∀ a ∈ l, a ∈ xs := by
  intro xs
  induction xs with
  | nil =>
    intro l hl
    rw [List.splitOn_nil] at hl
    simp only [List.mem_singleton] at hl
    subst hl
    simp
  | cons x xs ih =>
    intro l hl
    simp only [List.splitOn, List.splitOnP_cons] at hl ih
    by_cases hx : x = sep
    · rw [if_pos (by simp [hx])] at hl
      rcases List.mem_cons.mp hl with rfl | hl'
      · simp
      · have h := ih l hl'
        exact ⟨h.1, fun a ha => List.mem_cons_of_mem _ (h.2 a ha)⟩
    · rw [if_neg (by simp [hx])] at hl
      obtain ⟨h0, t0, heq⟩ :=
        List.exists_cons_of_ne_nil (List.splitOnP_ne_nil (· == sep) xs)
      rw [heq, List.modifyHead_cons] at hl
      rcases List.mem_cons.mp hl with rfl | hl'
      · have hh := ih h0 (by rw [heq]; exact List.mem_cons_self _ _)
        refine ⟨?_, ?_⟩
        · intro hmem
          rcases List.mem_cons.mp hmem with h | h
          · exact hx h.symm
          · exact hh.1 h
        · intro a ha
          rcases List.mem_cons.mp ha with rfl | h
          · exact List.mem_cons_self _ _
          · exact List.mem_cons_of_mem _ (hh.2 a h)
      · have h := ih l (by rw [heq]; exact List.mem_cons_of_mem _ hl')
        exact ⟨h.1, fun a ha => List.mem_cons_of_mem _ (h.2 a ha)⟩

/-- EOL normalization leaves no CR byte behind. -/
theorem not_mem_cr_normEol (raw : Bytes) : (13 : Nat) ∉ normEol raw := by
  intro h
  obtain ⟨a, -, ha⟩ := List.mem_map.mp h
  by_cases h13 : a = 13 <;> simp [replCRByte, h13] at ha

/-- `replace(b"\r\n", b"\n")` is the identity on CR-free inputs. -/
theorem replCRLF_eq_self : ∀ (xs : Bytes), (13 : Nat) ∉ xs → replCRLF xs = xs
  | [], _ => rfl
  | [_], _ => rfl
  | c1 :: c2 :: t, h => by
    rw [replCRLF, if_neg (by rintro ⟨rfl, -⟩; exact h (List.mem_cons_self _ _)),
      replCRLF_eq_self (c2 :: t) fun hm => h (List.mem_cons_of_mem _ hm)]

/-- EOL normalization is the identity on CR-free inputs. -/
theorem normEol_eq_self (xs : Bytes) (h : (13 : Nat) ∉ xs) : normEol xs = xs := by
  rw [normEol, replCRLF_eq_self xs h]
  calc xs.map replCRByte = xs.map id := by
        refine List.map_congr_left fun a ha => ?_
        simp only [replCRByte, id]
        rw [if_neg]
        rintro rfl
        exact h ha
    _ = xs := List.map_id xs

/-- A byte absent from the accumulator and from every physical line is
absent from every unfolded logical line. -/
theorem unfoldAux_not_mem (b : Nat) :
    ∀ (ls : List Bytes) (current : Bytes), b ∉ current →
      (∀ l ∈ ls, b ∉ l) → ∀ m ∈ unfoldAux current ls, b ∉ m := by
  intro ls
  induction ls with
  | nil =>
    intro current hc _ m hm
    simp only [unfoldAux] at hm
    split at hm
    · simp at hm
    · simp only [List.mem_singleton] at hm
      subst hm
      exact hc
  | cons l ls ih =>
    intro current hc hls m hm
    simp only [unfoldAux] at hm
    split at hm
    · refine ih (current ++ l.tail) ?_
        (fun l' hl' => hls l' (List.mem_cons_of_mem _ hl')) m hm
      intro hmem
      rcases List.mem_append.mp hmem with h | h
      · exact hc h
      · exact hls l (List.mem_cons_self _ _) ((List.tail_sublist l).subset h)
    · rcases List.mem_append.mp hm with h | h
      · split at h
        · simp at h
        · simp only [List.mem_singleton] at h
          subst h
          exact hc
      · exact ih l (hls l (List.mem_cons_self _ _))
          (fun l' hl' => hls l' (List.mem_cons_of_mem _ hl')) m h

/-- When no physical line is a continuation and none is empty, unfolding
flushes the accumulator and passes the lines through unchanged. -/
theorem unfoldAux_eq_self :
    ∀ (ls : List Bytes) (current : Bytes),
      (∀ l ∈ ls, startsWS l = false ∧ l ≠ []) →
      unfoldAux current ls = (if current.isEmpty then [] else [current]) ++ ls := by
  intro ls
  induction ls with
  | nil =>
    intro current _
    simp [unfoldAux]
  | cons l ls ih =>
    intro current h
    have hl := h l (List.mem_cons_self _ _)
    simp only [unfoldAux]
    rw [if_neg (by simp [hl.1]), ih l (fun m hm => h m (List.mem_cons_of_mem _ hm)),
      show (if l.isEmpty then ([] : List Bytes) else [l]) = [l] by
        rw [if_neg (by simp [hl.2])]]
    simp

/-- `pairOK` restricts to the tail. -/
theorem pairOK_tail (a : Bytes) (t : List Bytes) (h : pairOK (a :: t) = true) :
    pairOK t = true := by
  cases t with
  | nil => rfl
  | cons b t' =>
    rw [pairOK, Bool.and_eq_true] at h
    exact h.2

/-- From `pairOK`, a continuation line never directly follows an empty one. -/
theorem pairOK_head (a b : Bytes) (t : List Bytes)
    (h : pairOK (a :: b :: t) = true) (ha : a.isEmpty = true) :
    startsWS b = false := by
  rw [pairOK, Bool.and_eq_true] at h
  have h1 := h.1
  rw [ha] at h1
  simp at h1
  simp [h1]

/-- Appending does not change whether a non-empty byte string starts with
whitespace. -/
theorem startsWS_append (current x : Bytes) (h : current ≠ []) :
    startsWS (current ++ x) = startsWS current := by
  cases current with
  | nil => exact absurd rfl h
  | cons c cs => rfl

/-- Under the `goodFeed` conditions (`pairOK`, and `firstOK` whenever the
accumulator is empty), no unfolded logical line starts with whitespace. -/
theorem unfoldAux_no_leading_ws :
    ∀ (ls : List Bytes) (current : Bytes), pairOK ls = true →
      (current.isEmpty = true → firstOK ls = true) →
      (current.isEmpty = false → startsWS current = false) →
      ∀ m ∈ unfoldAux current ls, startsWS m = false := by
  intro ls
  induction ls with
  | nil =>
    intro current _ _ hcw m hm
    simp only [unfoldAux] at hm
    cases hc : current.isEmpty with
    | true =>
      rw [if_pos hc] at hm
      simp at hm
    | false =>
      rw [if_neg (by simp [hc])] at hm
      simp only [List.mem_singleton] at hm
      subst hm
      exact hcw hc
  | cons l ls ih =>
    intro current hp hce hcw m hm
    simp only [unfoldAux] at hm
    by_cases hws : startsWS l = true
    · rw [if_pos hws] at hm
      have hcne : current.isEmpty = false := by
        cases hc : current.isEmpty
        · rfl
        · have hf := hce hc
          rw [firstOK, hws] at hf
          simp at hf
      have hcws := hcw hcne
      have hcnil : current ≠ [] := by
        intro h0
        rw [h0] at hcne
        simp at hcne
      refine ih (current ++ l.tail) (pairOK_tail l ls hp) ?_ ?_ m hm
      · intro hemp
        rw [List.isEmpty_eq_true, List.append_eq_nil] at hemp
        exact absurd hemp.1 hcnil
      · intro _
        rw [startsWS_append current l.tail hcnil]
        exact hcws
    · rw [if_neg hws] at hm
      rcases List.mem_append.mp hm with h | h
      · cases hc : current.isEmpty with
        | true =>
          rw [if_pos hc] at h
          simp at h
        | false =>
          rw [if_neg (by simp [hc])] at h
          simp only [List.mem_singleton] at h
          subst h
          exact hcw hc
      · refine ih l (pairOK_tail l ls hp) ?_ ?_ m h
        · intro hle
          cases ls with
          | nil => rfl
          | cons b t =>
            rw [firstOK, pairOK_head l b t hp hle]
            rfl
        · intro _
          simpa using hws

/-- Every byte of `joinLF ls` is the separator or comes from one of the
joined lines. -/
theorem mem_joinLF :
    ∀ (ms : List Bytes) (b : Nat), b ∈ joinLF ms → b = 10 ∨ ∃ m ∈ ms, b ∈ m := by
  intro ms
  induction ms with
  | nil =>
    intro b hb
    simp [joinLF, List.intercalate] at hb
  | cons m ms ih =>
    intro b hb
    cases ms with
    | nil =>
      right
      refine ⟨m, List.mem_cons_self _ _, ?_⟩
      simpa [joinLF, List.intercalate] using hb
    | cons m2 ms2 =>
      rw [show joinLF (m :: m2 :: ms2) = m ++ 10 :: joinLF (m2 :: ms2) by
        simp [joinLF, List.intercalate]] at hb
      rcases List.mem_append.mp hb with h | h
      · exact Or.inr ⟨m, List.mem_cons_self _ _, h⟩
      · rcases List.mem_cons.mp h with rfl | h'
        · exact Or.inl rfl
        · rcases ih b h' with h10 | ⟨m', hm', hb'⟩
          · exact Or.inl h10
          · exact Or.inr ⟨m', List.mem_cons_of_mem _ hm', hb'⟩

/-- Facts holding of every line the sanitizer emits: it passed the filter,
is non-empty, and contains neither LF nor CR. -/
theorem sanitizeLines_mem_props (raw : Bytes) :
    ∀ m ∈ sanitizeLines raw,
      keepLine m = true ∧ m ≠ [] ∧ (10 : Nat) ∉ m ∧ (13 : Nat) ∉ m := by
  intro m hm
  obtain ⟨hu, hk⟩ := List.mem_filter.mp hm
  have hsp := mem_splitOn_props 10 (normEol raw)
  refine ⟨hk, ?_, ?_, ?_⟩
  · intro h0
    rw [h0] at hk
    exact absurd hk (by decide)
  · exact unfoldAux_not_mem 10 _ [] (by simp) (fun l hl => (hsp l hl).1) m hu
  · refine unfoldAux_not_mem 13 _ [] (by simp) (fun l hl hc => ?_) m hu
    exact not_mem_cr_normEol raw ((hsp l hl).2 13 hc)

/-- On a `goodFeed`, no sanitizer output line starts with whitespace. -/
theorem sanitizeLines_no_leading_ws (raw : Bytes) (h : goodFeed raw = true) :
    ∀ m ∈ sanitizeLines raw, startsWS m = false := by
  intro m hm
  rw [goodFeed, Bool.and_eq_true] at h
  exact unfoldAux_no_leading_ws _ [] h.2 (fun _ => h.1) (by intro hh; simp at hh)
    m (List.mem_filter.mp hm).1

/-- C9 as stated is false: the feed `"  X"` (a continuation line opening the
feed) yields the single logical line `" X"`, which begins with a space. -/
theorem C9_counterexample :
    sanitizeLines rawDoubleSpace = [[32, 88]] ∧ startsWS [32, 88] = true := by
  decide

/-- C9 amended: every logical line produced by sanitize is non-empty, and —
provided the feed neither opens with a continuation line nor has a
continuation line directly after an empty physical line (`goodFeed`) — no
logical line begins with a space or tab. -/
theorem C9_amended_line_invariant (raw l : Bytes) (hl : l ∈ sanitizeLines raw) :
    l ≠ [] ∧ (goodFeed raw = true → startsWS l = false) :=
  ⟨(sanitizeLines_mem_props raw l hl).2.1,
   fun hg => sanitizeLines_no_leading_ws raw hg l hl⟩

/-- Witness for C9 amended at the feed `"A:1"` and its surviving line. -/
theorem C9_amended_line_invariant_witness :
    rawA1 ≠ [] ∧ (goodFeed rawA1 = true → startsWS rawA1 = false) :=
  C9_amended_line_invariant rawA1 rawA1 (by decide)

/-- C8 as stated is false: sanitizing `"  X"` yields `" X"`, and sanitizing
that output again yields `"X"` — a second pass is not a no-op. -/
theorem C8_counterexample :
    sanitize_ics (sanitize_ics rawDoubleSpace) ≠ sanitize_ics rawDoubleSpace := by
  decide

/-- C8 amended: sanitization is idempotent on every feed that neither opens
with a continuation line nor has a continuation line directly after an empty
physical line (`goodFeed`); on such feeds no output line retains leading
whitespace, so a second pass splits, unfolds and filters to the same lines. -/
theorem C8_amended_idempotent (raw : Bytes) (h : goodFeed raw = true) :
    sanitize_ics (sanitize_ics raw) = sanitize_ics raw := by
  have hprops := sanitizeLines_mem_props raw
  have hws := sanitizeLines_no_leading_ws raw h
  rcases hms : sanitizeLines raw with _ | ⟨m0, ms'⟩
  · have hz : sanitize_ics raw = [] := by
      rw [sanitize_ics, hms]
      rfl
    rw [hz]
    decide
  · have hmsne : sanitizeLines raw ≠ [] := by
      rw [hms]
      simp
    have h13join : (13 : Nat) ∉ joinLF (sanitizeLines raw) := by
      intro hc
      rcases mem_joinLF (sanitizeLines raw) 13 hc with h10 | ⟨m, hm, hbm⟩
      · simp at h10
      · exact (hprops m hm).2.2.2 hbm
    have key : sanitizeLines (joinLF (sanitizeLines raw)) = sanitizeLines raw := by
      rw [sanitizeLines, normEol_eq_self _ h13join, splitLF, joinLF,
        List.splitOn_intercalate _ 10 (fun m hm => (hprops m hm).2.2.1) hmsne,
        unfoldLines,
        unfoldAux_eq_self _ [] (fun m hm => ⟨hws m hm, (hprops m hm).2.1⟩)]
      simp only [List.isEmpty_nil, if_true, List.nil_append]
      exact List.filter_eq_self.mpr fun m hm => (hprops m hm).1
    calc sanitize_ics (sanitize_ics raw)
        = joinLF (sanitizeLines (joinLF (sanitizeLines raw))) := rfl
      _ = joinLF (sanitizeLines raw) := by rw [key]
      _ = sanitize_ics raw := rfl

/-- Witness for C8 amended: the well-folded feed `"A:1\n B\n02:x"` satisfies
`goodFeed`, and sanitizing it twice equals sanitizing it once. -/
theorem C8_amended_idempotent_witness :
    goodFeed rawWellFolded = true ∧
      sanitize_ics (sanitize_ics rawWellFolded) = sanitize_ics rawWellFolded :=
  ⟨by decide, C8_amended_idempotent rawWellFolded (by decide)⟩

end DailyDigest
